import Mathlib

/-!
gonvif: WS-Discovery and SOAP call primitives.

A shallow embedding of `utils.go`, `soap.go` and `discover.go`.

Go strings are modelled by `String` (the text functions work on the
underlying `List Char`); every pattern the program uses is ASCII, so the
byte-level and character-level readings coincide.  Everything the program
obtains from outside (sockets, the clock, random identifiers, the XML
decoder, HTTP) enters the embedding as an explicit input.
-/

namespace Onvif

set_option maxRecDepth 100000

/-! ## Regular expressions used by the cleaning step (`regexp` package) -/

/-- The class `\s` of Go regular expressions: tab, newline, form feed,
carriage return and space. -/
def isSpace (c : Char) : Bool :=
  c = '\t' || c = '\n' || c = '\x0c' || c = '\r' || c = ' '

/-- Whether the text begins with a `\s` character. -/
def startsWithSpace : List Char → Bool
  | [] => false
  | c :: _ => isSpace c

/-- Anchored match of the pattern `\>\s+\<` at the head of the text: the text
left after the match, if the pattern matches here.  `\s+` is greedy and the
characters it can consume are never `<`, so the match is the `>`, the whole
run of whitespace after it, and the `<` that follows the run. -/
def matchTagGap : List Char → Option (List Char)
  | [] => none
  | c :: rest =>
    if c = '>' ∧ startsWithSpace rest = true then
      match rest.dropWhile isSpace with
      | [] => none
      | d :: tail => if d = '<' then some tail else none
    else none

/-- Anchored match of the pattern `\s+` at the head of the text: the text left
after the (greedy) match. -/
def matchSpaces : List Char → Option (List Char)
  | [] => none
  | c :: rest => if isSpace c = true then some (rest.dropWhile isSpace) else none

/-- Left-to-right scan of `Regexp.ReplaceAllString` for a pattern that never
matches the empty text: at each position the leftmost match is replaced by
`repl` and the scan resumes after it; a character where no match starts is
copied.  The first argument bounds the number of steps. -/
def replaceAllAux (re : List Char → Option (List Char)) (repl : List Char) :
    Nat → List Char → List Char
  | 0, _ => []
  | _ + 1, [] => []
  | fuel + 1, c :: rest =>
    match re (c :: rest) with
    | some tail => repl ++ replaceAllAux re repl fuel tail
    | none => c :: replaceAllAux re repl fuel rest

/-- The call `regexp.MustCompile(re).ReplaceAllString(src, repl)`; one step
per character of `src` is enough, since every match consumes at least one. -/
def ReplaceAllString (re : List Char → Option (List Char)) (src repl : List Char) :
    List Char :=
  replaceAllAux re repl src.length src

/-! ## utils.go -/

/-- Character-level body of `cleanSOAPMessage`: first `\>\s+\<` becomes `><`,
then `\s+` becomes a single space. -/
def cleanChars (message : List Char) : List Char :=
  let message := ReplaceAllString matchTagGap message ['>', '<']
  let message := ReplaceAllString matchSpaces message [' ']
  message

/-- The function `cleanSOAPMessage` of utils.go. -/
def cleanSOAPMessage (message : String) : String :=
  String.mk (cleanChars message.data)

/-- A run of whitespace between tags: `>` followed by one or more whitespace
characters followed by `<`, somewhere in the text. -/
def HasTagGap (l : List Char) : Prop :=
  ∃ pre ws post, ws ≠ [] ∧ (∀ c ∈ ws, isSpace c = true) ∧
    l = pre ++ '>' :: (ws ++ '<' :: post)

/-- No match of `\>\s+\<` starts at any position of the text. -/
def noTagGap : List Char → Bool
  | [] => true
  | c :: rest => (matchTagGap (c :: rest)).isNone && noTagGap rest

/-- What a match of `\>\s+\<` at a `>` looks at in the text after the `>`:
whether it begins with whitespace, and the first character after the leading
whitespace. -/
def gapView (l : List Char) : Bool × Option Char :=
  (startsWithSpace l, (l.dropWhile isSpace).head?)

/-! ## encoding/base64 and crypto/sha1 (Go standard library)

Byte strings are lists of numbers below 256. -/

/-- The bytes of a Go string holding the given text (UTF-8). -/
def utf8Bytes (s : String) : List Nat :=
  (s.data.flatMap String.utf8EncodeChar).map UInt8.toNat

/-- The alphabet of `base64.StdEncoding`. -/
def base64Alphabet : List Char :=
  "ABCDEFGHIJKLMNOPQRSTUVWXYZabcdefghijklmnopqrstuvwxyz0123456789+/".data

/-- The character of a six-bit group. -/
def base64Char (n : Nat) : Char := base64Alphabet.getD n '='

/-- The call `base64.StdEncoding.EncodeToString`, padded with `=`. -/
def EncodeToString : List Nat → List Char
  | [] => []
  | [a] => [base64Char (a / 4), base64Char (a % 4 * 16), '=', '=']
  | [a, b] =>
    [base64Char (a / 4), base64Char (a % 4 * 16 + b / 16), base64Char (b % 16 * 4), '=']
  | a :: b :: c :: rest =>
    base64Char (a / 4) :: base64Char (a % 4 * 16 + b / 16) ::
      base64Char (b % 16 * 4 + c / 64) :: base64Char (c % 64) :: EncodeToString rest

/-- Rotation to the left of a 32-bit word. -/
def rotl32 (x n : Nat) : Nat := ((x <<< n) ||| (x >>> (32 - n))) % 2 ^ 32

/-- Big-endian bytes of a number, `width` of them. -/
def bigEndian (width n : Nat) : List Nat :=
  (List.range width).map (fun i => n / 256 ^ (width - 1 - i) % 256)

/-- SHA-1 padding: a `0x80` byte, zero bytes up to 56 modulo 64, and the length
in bits as eight bytes. -/
def sha1Pad (msg : List Nat) : List Nat :=
  msg ++ [0x80] ++ List.replicate ((119 - msg.length % 64) % 64) 0 ++
    bigEndian 8 (8 * msg.length)

/-- The big-endian 32-bit words of a block. -/
def wordsOf : List Nat → List Nat
  | a :: b :: c :: d :: rest => (((a * 256 + b) * 256 + c) * 256 + d) :: wordsOf rest
  | _ => []

/-- Message schedule: `n` more words appended to the words so far. -/
def sha1Schedule : Nat → List Nat → List Nat
  | 0, w => w
  | n + 1, w =>
    let i := w.length
    sha1Schedule n (w ++ [rotl32 (w.getD (i - 3) 0 ^^^ w.getD (i - 8) 0 ^^^
      w.getD (i - 14) 0 ^^^ w.getD (i - 16) 0) 1])

/-- The five working words of SHA-1. -/
structure Sha1State where
  a : Nat
  b : Nat
  c : Nat
  d : Nat
  e : Nat
deriving DecidableEq

/-- Round `i` of the compression function on schedule word `w`. -/
def sha1Round (i : Nat) (s : Sha1State) (w : Nat) : Sha1State :=
  let fk : Nat × Nat :=
    if i < 20 then ((s.b &&& s.c) ||| ((s.b ^^^ (2 ^ 32 - 1)) &&& s.d), 0x5A827999)
    else if i < 40 then (s.b ^^^ s.c ^^^ s.d, 0x6ED9EBA1)
    else if i < 60 then ((s.b &&& s.c) ||| (s.b &&& s.d) ||| (s.c &&& s.d), 0x8F1BBCDC)
    else (s.b ^^^ s.c ^^^ s.d, 0xCA62C1D6)
  { a := (rotl32 s.a 5 + fk.1 + s.e + fk.2 + w) % 2 ^ 32, b := s.a, c := rotl32 s.b 30,
    d := s.c, e := s.d }

/-- The rounds over the schedule, starting at round `i`. -/
def sha1Rounds : Nat → Sha1State → List Nat → Sha1State
  | _, s, [] => s
  | i, s, w :: ws => sha1Rounds (i + 1) (sha1Round i s w) ws

/-- Compression of one 64-byte block into the chaining value. -/
def sha1Block (h : Sha1State) (block : List Nat) : Sha1State :=
  let s := sha1Rounds 0 h (sha1Schedule 64 (wordsOf block))
  { a := (h.a + s.a) % 2 ^ 32, b := (h.b + s.b) % 2 ^ 32, c := (h.c + s.c) % 2 ^ 32,
    d := (h.d + s.d) % 2 ^ 32, e := (h.e + s.e) % 2 ^ 32 }

/-- All blocks of the padded message; the first argument bounds their number. -/
def sha1Blocks : Nat → Sha1State → List Nat → Sha1State
  | 0, h, _ => h
  | n + 1, h, l => if l = [] then h else sha1Blocks n (sha1Block h (l.take 64)) (l.drop 64)

/-- The digest `sha1.New()`, `Write(msg)`, `Sum(nil)`: twenty bytes. -/
def sha1Sum (msg : List Nat) : List Nat :=
  let p := sha1Pad msg
  let h := sha1Blocks p.length ⟨0x67452301, 0xEFCDAB89, 0x98BADCFE, 0x10325476, 0xC3D2E1F0⟩ p
  bigEndian 4 h.a ++ bigEndian 4 h.b ++ bigEndian 4 h.c ++ bigEndian 4 h.d ++ bigEndian 4 h.e

/-! ## Errors -/

/-- Go error values as the program tells them apart: the package variable
`errWrongDiscoveryResponse`, which the code compares against, and every other
error value (made by `errors.New` or returned by a library) with its text. -/
inductive Error
  | WrongDiscoveryResponse
  | New (text : String)
deriving DecidableEq

/-- The package variable `errWrongDiscoveryResponse`. -/
def errWrongDiscoveryResponse : Error := Error.WrongDiscoveryResponse

/-- The method `Error()` of an error value. -/
def Error.text : Error → String
  | .WrongDiscoveryResponse => "Response is not related to discovery request"
  | .New text => text

/-! ## The XML map of the mxj library (third party)

`mxj.NewMapXml` turns an XML document into a `map[string]interface{}` with one
entry, the root element; an element becomes a string (text only), a nested map
(child elements, attributes under `-name`, text under `#text`) or a slice
(repeated elements).  The decoder itself is not modelled: a document is
represented by what `NewMapXml` returns on it. -/

/-- A value held in an `mxj.Map`. -/
inductive Value
  | str (s : String)
  | map (m : List (String × Value))
  | list (l : List Value)

/-- The type `mxj.Map`; the value of a key is that of its first entry. -/
abbrev Map := List (String × Value)

/-- The library function `valuesForKeyPath` for keys that are plain names (the
paths of this program have neither `*` nor an index): the values reached
from `m` along `keys`, a slice on the way being searched member by member and
a slice at the end being expanded. -/
def valuesForKeyPath : Value → List String → List Value
  | .list l, [] => l
  | m, [] => [m]
  | .map kv, key :: keys =>
    match kv.lookup key with
    | some v => valuesForKeyPath v keys
    | none => []
  | .list l, key :: keys =>
    l.flatMap fun v =>
      match v with
      | .map kv =>
        match kv.lookup key with
        | some vv => valuesForKeyPath vv keys
        | none => []
      | _ => []
  | .str _, _ :: _ => []

/-- The call `strings.Split(s, sep)` for a separator of one character. -/
def splitChar (sep : Char) : List Char → List (List Char)
  | [] => [[]]
  | c :: rest =>
    if c = sep then [] :: splitChar sep rest
    else
      match splitChar sep rest with
      | [] => [[c]]
      | w :: ws => (c :: w) :: ws

/-- The method `Map.ValuesForPath` on a dot-separated path; an empty last key
is dropped. -/
def ValuesForPath (mv : Map) (path : String) : List Value :=
  let keys := (splitChar '.' path.data).map String.mk
  let keys := if keys.getLast? = some "" then keys.dropLast else keys
  valuesForKeyPath (.map mv) keys

/-- The method `Map.ValueForPathString`: the first value of the path when it is
a string, an error when the path has no value or the value is not a string. -/
def ValueForPathString (mv : Map) (path : String) : String × Option Error :=
  match ValuesForPath mv path with
  | [] => ("", some (Error.New "ValueForPath: path not found"))
  | .str s :: _ => (s, none)
  | _ :: _ => ("", some (Error.New "ValueForPath: unsupported type"))

mutual
/-- The library function `hasKey`: every value stored under `key` at any depth
(the members of a slice stored under it one by one). -/
def hasKey (key : String) : Value → List Value
  | .str _ => []
  | .map m =>
    (match m.lookup key with
      | some (.list l) => l
      | some v => [v]
      | none => []) ++ hasKeyEntries key m
  | .list l => hasKeyList key l
/-- The scan of the values of a map of `hasKey`. -/
def hasKeyEntries (key : String) : List (String × Value) → List Value
  | [] => []
  | (_, v) :: rest => hasKey key v ++ hasKeyEntries key rest
/-- The scan of the members of a slice of `hasKey`. -/
def hasKeyList (key : String) : List Value → List Value
  | [] => []
  | v :: rest => hasKey key v ++ hasKeyList key rest
end

/-- The method `Map.ValueForKey`: the first value stored under `key` anywhere in
the map, or nil; `key` is one key, not a path. -/
def ValueForKey (mv : Map) (key : String) : Option Value :=
  (hasKey key (.map mv)).head?

/-! ## strings (Go standard library) -/

/-- The call `strings.HasPrefix`. -/
def HasPrefix (s pre : String) : Bool := pre.data.isPrefixOf s.data

/-- Scan of `strings.Replace` for a non-empty `old`: the first `n`
non-overlapping occurrences are replaced, all of them when `n` is negative.
The first argument bounds the number of steps. -/
def replaceAux (old new : List Char) : Nat → Int → List Char → List Char
  | 0, _, s => s
  | _ + 1, _, [] => []
  | fuel + 1, n, c :: rest =>
    if n ≠ 0 ∧ old.isPrefixOf (c :: rest) = true then
      new ++ replaceAux old new fuel (n - 1) ((c :: rest).drop old.length)
    else c :: replaceAux old new fuel n rest

/-- The call `strings.Replace(s, old, new, n)`, for a non-empty `old`. -/
def Replace (s old new : String) (n : Int) : String :=
  String.mk (replaceAux old.data new.data s.data.length n s.data)

/-- The call `strings.Split(s, " ")`. -/
def SplitBlank (s : String) : List String :=
  (splitChar ' ' s.data).map String.mk

/-! ## utils.go: interfaceToString -/

/-- The function `interfaceToString`: the string held by the value, the empty
string when it holds something else. -/
def interfaceToString : Value → String
  | .str data => data
  | _ => ""

/-! ## discover.go -/

/-- Modelled from the spec: the struct `Device`, declared in a file of the
package that is not among the sources; the fields are those of section 3 of
the specification, which are the ones discover.go assigns. -/
structure Device where
  ID : String
  Name : String
  XAddr : String
deriving DecidableEq, Repr

/-- The first scope with the name prefix, rendered: the `for` loop over the
scopes of `GetDeviceFromDiscoverProbeResponse`, which leaves `deviceName`
empty when no scope has the prefix. -/
def scanScopes : List String → String
  | [] => ""
  | scope :: rest =>
    if HasPrefix scope "onvif://www.onvif.org/name/" then
      let deviceName := Replace scope "onvif://www.onvif.org/name/" "" 1
      let deviceName := Replace deviceName "_" " " (-1)
      deviceName
    else scanScopes rest

/-- The function `GetDeviceFromDiscoverProbeResponse`; `parsed` is what
`mxj.NewMapXml(response)` returns, the map or the text of the error of the
decoder (an error value of the library, never `errWrongDiscoveryResponse`). -/
def GetDeviceFromDiscoverProbeResponse (messageID : String) (parsed : Except String Map) :
    Device × Option Error :=
  let result : Device := { ID := "", Name := "", XAddr := "" }
  match parsed with
  | .error text => (result, some (Error.New text))
  | .ok mapXML =>
    match ValueForPathString mapXML "Envolope.Header.RelatesTo" with
    | (responseID, some err) =>
      if messageID ≠ responseID then (result, some errWrongDiscoveryResponse)
      else (result, some err)
    | (_, none) =>
      let deviceID :=
        (ValueForPathString mapXML
          "Envelope.Body.ProbeMatches.ProbeMatch.EndpointReference.Address").1
      let deviceID := Replace deviceID "urn:uuid:" "" 1
      let scopes := (ValueForPathString mapXML "Envelope.Body.ProbeMatches.ProbeMatch.Scopes").1
      let deviceName := scanScopes (SplitBlank scopes)
      let xAddrs := (ValueForPathString mapXML "Envelope.Body.ProbeMatches.ProbeMatch.XAddrs").1
      let listXAddr := SplitBlank xAddrs
      if listXAddr.length = 0 then (result, some (Error.New "Device does not have any xAddr"))
      else ({ ID := deviceID, Name := deviceName, XAddr := listXAddr.headD "" }, none)

/-- What the calls made by `DiscoverDevices` before its receive loop return:
the two `net.ResolveUDPAddr`, `net.ListenUDP`, `conn.SetDeadline` and
`conn.WriteToUDP`, each with its error (or nil). -/
structure Setup where
  resolveLocal : Option Error
  resolveMulticast : Option Error
  listen : Option Error
  setDeadline : Option Error
  write : Option Error

/-- One call of `conn.ReadFromUDP`: a datagram (given by what `mxj.NewMapXml`
returns on the buffer), an error that is a timeout, or another error. -/
inductive Receive
  | datagram (parsed : Except String Map)
  | timeout
  | failure (err : Error)

/-- The receive loop of `DiscoverDevices` over the successive outcomes of
`conn.ReadFromUDP`; once they are used up the deadline set on the socket has
passed and the next call is a timeout. -/
def receiveLoop (requestID : String) : List Device → List Receive → List Device × Option Error
  | discoveryResults, [] => (discoveryResults, none)
  | discoveryResults, .timeout :: _ => (discoveryResults, none)
  | discoveryResults, .failure err :: _ => (discoveryResults, some err)
  | discoveryResults, .datagram parsed :: rest =>
    match GetDeviceFromDiscoverProbeResponse requestID parsed with
    | (device, err) =>
      if err ≠ none ∧ err ≠ some errWrongDiscoveryResponse then ([], err)
      else receiveLoop requestID (discoveryResults ++ [device]) rest

/-- The function `DiscoverDevices`; `requestID` is `uuid.NewV4().String()`. -/
def DiscoverDevices (setup : Setup) (requestID : String) (received : List Receive) :
    List Device × Option Error :=
  match setup.resolveLocal with
  | some err => ([], some err)
  | none =>
    match setup.resolveMulticast with
    | some err => ([], some err)
    | none =>
      match setup.listen with
      | some err => ([], some err)
      | none =>
        match setup.setDeadline with
        | some err => ([], some err)
        | none =>
          match setup.write with
          | some err => ([], some err)
          | none => receiveLoop requestID [] received

/-- A socket on which every call before the receive loop succeeds. -/
def Setup.ok : Setup :=
  { resolveLocal := none, resolveMulticast := none, listen := none, setDeadline := none,
    write := none }

/-! ## soap.go -/

/-- The struct `SOAP`: a request and all of its components.  `TokenAge` is a
duration in nanoseconds. -/
structure SOAP where
  Body : String
  XMLNs : List String
  User : String
  Password : String
  TokenAge : Int
deriving DecidableEq

/-- The function `MakeRequest`. -/
def MakeRequest (body : String) (xmlns : List String) (user password : String)
    (tokenAge : Int) : SOAP :=
  { Body := body, XMLNs := xmlns, User := user, Password := password, TokenAge := tokenAge }

/-- The method `createUserToken`.  Its two readings of the outside world are
inputs: `nonce` is `uuid.NewV4().Bytes()` and `timestamp` is
`time.Now().Add(soap.TokenAge).UTC().Format(time.RFC3339)`. -/
def SOAP.createUserToken (soap : SOAP) (nonce : List Nat) (timestamp : String) : String :=
  let nonce64 := String.mk (EncodeToString nonce)
  let token := nonce ++ utf8Bytes timestamp ++ utf8Bytes soap.Password
  let shaToken := sha1Sum token
  let shaDigest64 := String.mk (EncodeToString shaToken)
  "<Security s:mustUnderstand=\"1\" xmlns=\"http://docs.oasis-open.org/wss/2004/01/oasis-200401-wss-wssecurity-secext-1.0.xsd\">\n  \t\t<UsernameToken>\n    \t\t<Username>" ++ soap.User ++ "</Username>\n    \t\t<Password Type=\"http://docs.oasis-open.org/wss/2004/01/oasis-200401-wss-username-token-profile-1.0#PasswordDigest\">" ++ shaDigest64 ++ "</Password>\n    \t\t<Nonce EncodingType=\"http://docs.oasis-open.org/wss/2004/01/oasis-200401-wss-soap-message-security-1.0#Base64Binary\">" ++ nonce64 ++ "</Nonce>\n    \t\t<Created xmlns=\"http://docs.oasis-open.org/wss/2004/01/oasis-200401-wss-wssecurity-utility-1.0.xsd\">" ++ timestamp ++ "</Created>\n\t\t</UsernameToken>\n\t</Security>"

/-- The loop of `createRequest` that appends `" " + namespace` for each
namespace. -/
def appendNamespaces (request : String) : List String → String
  | [] => request
  | namespace_ :: rest => appendNamespaces (request ++ " " ++ namespace_) rest

/-- The request of `createRequest` before the cleaning step. -/
def SOAP.rawRequest (soap : SOAP) (nonce : List Nat) (timestamp : String) : String :=
  let request := "<?xml version=\"1.0\" encoding=\"UTF-8\"?>"
  let request := request ++ "<s:Envelope xmlns:s=\"http://www.w3.org/2003/05/soap-envelope\""
  let request := appendNamespaces request soap.XMLNs
  let request := request ++ ">"
  let request :=
    if soap.User ≠ "" then
      request ++ ("<s:Header>" ++ soap.createUserToken nonce timestamp ++ "</s:Header>")
    else request
  let request := request ++ ("<s:Body>" ++ soap.Body ++ "</s:Body>")
  let request := request ++ "</s:Envelope>"
  request

/-- The method `createRequest`: the request, then the same two replacements
as `cleanSOAPMessage`. -/
def SOAP.createRequest (soap : SOAP) (nonce : List Nat) (timestamp : String) : String :=
  let request := soap.rawRequest nonce timestamp
  let request := String.mk (ReplaceAllString matchTagGap request.data ['>', '<'])
  let request := String.mk (ReplaceAllString matchSpaces request.data [' '])
  request

/-- The XML declaration and the start tag of `s:Envelope` with its namespaces,
as `createRequest` builds them. -/
def envelopeStartTag (xmlns : List String) : String :=
  appendNamespaces
    ("<?xml version=\"1.0\" encoding=\"UTF-8\"?>" ++
      "<s:Envelope xmlns:s=\"http://www.w3.org/2003/05/soap-envelope\"") xmlns ++ ">"

/-! ## soap.go: the end of `Call` -/

/-- What the calls made by `SOAP.Call` return, in order: `url.Parse`,
`http.NewRequest`, `http.DefaultClient.Do`, `ioutil.ReadAll` (each with its
error or nil) and `mxj.NewMapXml` on the response body (the map, or the text
of the error of the decoder). -/
structure Exchange where
  parseURL : Option Error
  newRequest : Option Error
  send : Option Error
  readAll : Option Error
  parsed : Except String Map

/-- The fault check that ends `SOAP.Call`, on the parsed response. -/
def faultCheck (xmlMAP : Map) : Option Map × Option Error :=
  match ValueForKey xmlMAP "Envolope.Body.Fault.Reason.Text.#text" with
  | some err => (none, some (Error.New (interfaceToString err)))
  | none => (some xmlMAP, none)

/-- The method `SOAP.Call`, given what the exchange with the device returns;
the request sent is `soap.createRequest`, which the result does not depend
on. -/
def SOAP.Call (_soap : SOAP) (exchange : Exchange) : Option Map × Option Error :=
  match exchange.parseURL with
  | some err => (none, some err)
  | none =>
    match exchange.newRequest with
    | some err => (none, some err)
    | none =>
      match exchange.send with
      | some err => (none, some err)
      | none =>
        match exchange.readAll with
        | some err => (none, some err)
        | none =>
          match exchange.parsed with
          | .error text => (none, some (Error.New text))
          | .ok xmlMAP => faultCheck xmlMAP

/-! ## Sample inputs -/

/-- What `mxj.NewMapXml` returns on a ProbeMatches response under the root
element `root`, with the given correlation field, scopes and service
addresses. -/
def probeMatchUnder (root relatesTo scopes xAddrs : String) : Map :=
  [(root, .map
    [("Header", .map
      [("MessageID", .str "urn:uuid:0a6dc791-2be6-4991-9af1-454778a1917a"),
       ("RelatesTo", .str relatesTo),
       ("To", .str "http://schemas.xmlsoap.org/ws/2004/08/addressing/role/anonymous"),
       ("Action", .str "http://schemas.xmlsoap.org/ws/2005/04/discovery/ProbeMatches")]),
     ("Body", .map
      [("ProbeMatches", .map
        [("ProbeMatch", .map
          [("EndpointReference", .map
            [("Address", .str "urn:uuid:a1e3e5d9-8b2f-4d2a-9a57-3c1d1f6e0b42")]),
           ("Types", .str "dn:NetworkVideoTransmitter"),
           ("Scopes", .str scopes),
           ("XAddrs", .str xAddrs),
           ("MetadataVersion", .str "1")])])])])]

/-- A well-formed ProbeMatches response: the root element is `Envelope`. -/
def probeMatch (relatesTo scopes xAddrs : String) : Map :=
  probeMatchUnder "Envelope" relatesTo scopes xAddrs

/-- The message identifier of the sample round. -/
def sampleID : String := "6ba7b810-9dad-41d1-80b4-00c04fd430c8"

/-- The scopes of the sample camera. -/
def sampleScopes : String :=
  "onvif://www.onvif.org/type/video_encoder onvif://www.onvif.org/name/Front_Door"

/-- A response whose body is a SOAP fault with the given reason text. -/
def faultResponse (text : String) : Map :=
  [("Envelope", .map
    [("Body", .map
      [("Fault", .map
        [("Code", .map [("Value", .str "env:Sender")]),
         ("Reason", .map [("Text", .str text)])])])])]

/-- An exchange in which every call succeeds and the response body parses to
`xmlMAP`. -/
def Exchange.ok (xmlMAP : Map) : Exchange :=
  { parseURL := none, newRequest := none, send := none, readAll := none, parsed := .ok xmlMAP }

/-! ## Properties of the cleaning step -/

theorem dropWhile_isSpace_append (ws rest : List Char) (d : Char)
    (hws : ∀ c ∈ ws, isSpace c = true) (hd : isSpace d = false) :
    (ws ++ d :: rest).dropWhile isSpace = d :: rest := by
  induction ws with
  | nil => simp [List.dropWhile, hd]
  | cons w ws ih =>
    have hw : isSpace w = true := hws w (by simp)
    have h := ih (fun c hc => hws c (by simp [hc]))
    simp [List.dropWhile, hw, h]

theorem noTagGap_sound (l : List Char) (h : noTagGap l = true) : ¬ HasTagGap l := by
  rintro ⟨pre, ws, post, hne, hws, rfl⟩
  induction pre with
  | nil =>
    cases ws with
    | nil => exact hne rfl
    | cons w ws =>
      have hw : isSpace w = true := hws w (by simp)
      have hd := dropWhile_isSpace_append (w :: ws) post '<' hws (by decide)
      simp only [List.nil_append, noTagGap, matchTagGap, List.cons_append, startsWithSpace, hw,
        and_self, if_true] at h hd
      simp [hd] at h
  | cons p pre ih =>
    simp only [List.cons_append, noTagGap, Bool.and_eq_true] at h
    exact ih h.2

theorem matchTagGap_cons_eq_none (c : Char) (x : List Char) :
    matchTagGap (c :: x) = none ↔ ¬ (c = '>' ∧ gapView x = (true, some '<')) := by
  simp only [matchTagGap, gapView]
  by_cases hc : c = '>'
  · by_cases hs : startsWithSpace x = true
    · cases hd : x.dropWhile isSpace with
      | nil => simp [hc, hs]
      | cons d tail =>
        by_cases hlt : d = '<' <;> simp [hc, hs, hlt]
    · simp [hc, hs]
  · simp [hc]

theorem matchTagGap_length (l tail : List Char) (h : matchTagGap l = some tail) :
    tail.length < l.length := by
  cases l with
  | nil => simp [matchTagGap] at h
  | cons c rest =>
    simp only [matchTagGap] at h
    split at h
    · have hle := (List.dropWhile_sublist (l := rest) isSpace).length_le
      split at h
      · simp at h
      · rename_i d t hd
        split at h
        · simp only [Option.some.injEq] at h
          subst h
          rw [hd] at hle
          simp only [List.length_cons] at hle ⊢
          omega
        · simp at h
    · simp at h

theorem matchTagGap_head (l tail : List Char) (h : matchTagGap l = some tail) :
    ∃ rest, l = '>' :: rest := by
  cases l with
  | nil => simp [matchTagGap] at h
  | cons c rest =>
    simp only [matchTagGap] at h
    split at h
    · rename_i hc
      exact ⟨rest, by rw [hc.1]⟩
    · simp at h

theorem gapView_replaceTagGap (fuel : Nat) (x : List Char) (hx : x.length ≤ fuel) :
    gapView (replaceAllAux matchTagGap ['>', '<'] fuel x) = gapView x := by
  induction fuel generalizing x with
  | zero =>
    have : x = [] := List.length_eq_zero.mp (Nat.le_zero.mp hx)
    subst this
    simp [replaceAllAux]
  | succ n ih =>
    cases x with
    | nil => simp [replaceAllAux]
    | cons c rest =>
      have hr : rest.length ≤ n := by simpa using hx
      cases hm : matchTagGap (c :: rest) with
      | some tail =>
        obtain ⟨r, hr2⟩ := matchTagGap_head _ _ hm
        simp only [List.cons.injEq] at hr2
        obtain ⟨rfl, rfl⟩ := hr2
        simp only [replaceAllAux, hm]
        simp [gapView, startsWithSpace, isSpace, List.dropWhile]
      | none =>
        simp only [replaceAllAux, hm]
        have h := ih rest hr
        simp only [gapView, Prod.mk.injEq] at h ⊢
        by_cases hc : isSpace c = true
        · simp [startsWithSpace, List.dropWhile, hc, h.2]
        · simp [startsWithSpace, List.dropWhile, hc]

theorem noTagGap_replaceTagGap (fuel : Nat) (x : List Char) (hx : x.length ≤ fuel) :
    noTagGap (replaceAllAux matchTagGap ['>', '<'] fuel x) = true := by
  induction fuel generalizing x with
  | zero => simp [replaceAllAux, noTagGap]
  | succ n ih =>
    cases x with
    | nil => simp [replaceAllAux, noTagGap]
    | cons c rest =>
      have hr : rest.length ≤ n := by simpa using hx
      cases hm : matchTagGap (c :: rest) with
      | some tail =>
        have hlen := matchTagGap_length _ _ hm
        simp only [List.length_cons] at hlen
        have ht : tail.length ≤ n := by omega
        simp only [replaceAllAux, hm, List.cons_append, List.nil_append, noTagGap,
          Bool.and_eq_true, Option.isNone_iff_eq_none]
        refine ⟨?_, ?_, ih tail ht⟩
        · rw [matchTagGap_cons_eq_none]
          simp [gapView, startsWithSpace, isSpace]
        · rw [matchTagGap_cons_eq_none]
          simp
      | none =>
        simp only [replaceAllAux, hm, noTagGap, Bool.and_eq_true, Option.isNone_iff_eq_none]
        refine ⟨?_, ih rest hr⟩
        rw [matchTagGap_cons_eq_none] at hm ⊢
        rw [gapView_replaceTagGap n rest hr]
        exact hm

theorem dropWhile_isSpace_idem (l : List Char) :
    (l.dropWhile isSpace).dropWhile isSpace = l.dropWhile isSpace := by
  induction l with
  | nil => rfl
  | cons c rest ih =>
    by_cases hc : isSpace c = true
    · simp [List.dropWhile, hc, ih]
    · simp [List.dropWhile, hc]

theorem noTagGap_dropWhile (l : List Char) (h : noTagGap l = true) :
    noTagGap (l.dropWhile isSpace) = true := by
  induction l with
  | nil => simpa using h
  | cons c rest ih =>
    by_cases hc : isSpace c = true
    · simp only [noTagGap, Bool.and_eq_true] at h
      simpa [List.dropWhile, hc] using ih h.2
    · simpa [List.dropWhile, hc] using h

theorem replaceSpaces_cons_pos (n : Nat) (c : Char) (rest : List Char)
    (hc : isSpace c = true) :
    replaceAllAux matchSpaces [' '] (n + 1) (c :: rest) =
      ' ' :: replaceAllAux matchSpaces [' '] n (rest.dropWhile isSpace) := by
  simp [replaceAllAux, matchSpaces, hc]

theorem replaceSpaces_cons_neg (n : Nat) (c : Char) (rest : List Char)
    (hc : ¬ isSpace c = true) :
    replaceAllAux matchSpaces [' '] (n + 1) (c :: rest) =
      c :: replaceAllAux matchSpaces [' '] n rest := by
  simp [replaceAllAux, matchSpaces, hc]

theorem isSpace_blank : isSpace ' ' = true := by decide

theorem gapView_replaceSpaces (fuel : Nat) (x : List Char) (hx : x.length ≤ fuel) :
    gapView (replaceAllAux matchSpaces [' '] fuel x) = gapView x := by
  induction fuel generalizing x with
  | zero =>
    have : x = [] := List.length_eq_zero.mp (Nat.le_zero.mp hx)
    subst this
    simp [replaceAllAux]
  | succ n ih =>
    cases x with
    | nil => simp [replaceAllAux]
    | cons c rest =>
      have hr : rest.length ≤ n := by simpa using hx
      by_cases hc : isSpace c = true
      · have hle := (List.dropWhile_sublist (l := rest) isSpace).length_le
        have h := ih (rest.dropWhile isSpace) (by omega)
        simp only [gapView, Prod.mk.injEq, dropWhile_isSpace_idem] at h
        rw [replaceSpaces_cons_pos n c rest hc]
        simp [gapView, startsWithSpace, isSpace_blank, List.dropWhile, hc, h.2]
      · rw [replaceSpaces_cons_neg n c rest hc]
        simp [gapView, startsWithSpace, List.dropWhile, hc]

theorem noTagGap_replaceSpaces (fuel : Nat) (x : List Char) (hx : x.length ≤ fuel)
    (h : noTagGap x = true) :
    noTagGap (replaceAllAux matchSpaces [' '] fuel x) = true := by
  induction fuel generalizing x with
  | zero => simp [replaceAllAux, noTagGap]
  | succ n ih =>
    cases x with
    | nil => simp [replaceAllAux, noTagGap]
    | cons c rest =>
      have hr : rest.length ≤ n := by simpa using hx
      have h2 := h
      simp only [noTagGap, Bool.and_eq_true, Option.isNone_iff_eq_none] at h2
      by_cases hc : isSpace c = true
      · have hle := (List.dropWhile_sublist (l := rest) isSpace).length_le
        have hi := ih (rest.dropWhile isSpace) (by omega) (noTagGap_dropWhile rest h2.2)
        have hne : ¬ ((' ' : Char) = '>') := by decide
        rw [replaceSpaces_cons_pos n c rest hc]
        simp [noTagGap, hi, matchTagGap, hne]
      · have hi := ih rest hr h2.2
        rw [replaceSpaces_cons_neg n c rest hc]
        simp only [noTagGap, Bool.and_eq_true, Option.isNone_iff_eq_none]
        refine ⟨?_, hi⟩
        have h1 := h2.1
        rw [matchTagGap_cons_eq_none] at h1 ⊢
        rw [gapView_replaceSpaces n rest hr]
        exact h1

/-- The cleaning step leaves no `>` followed by whitespace followed by `<`. -/
theorem cleanChars_no_gap (message : List Char) : ¬ HasTagGap (cleanChars message) := by
  apply noTagGap_sound
  simp only [cleanChars, ReplaceAllString]
  apply noTagGap_replaceSpaces _ _ (Nat.le_refl _)
  exact noTagGap_replaceTagGap _ _ (Nat.le_refl _)

/-! ## The two replacements, step by step -/

theorem replaceAllAux_fuel (re : List Char → Option (List Char)) (repl : List Char)
    (hre : ∀ l tail, re l = some tail → tail.length < l.length)
    (n m : Nat) (x : List Char) (hn : x.length ≤ n) (hm : x.length ≤ m) :
    replaceAllAux re repl n x = replaceAllAux re repl m x := by
  induction n generalizing m x with
  | zero =>
    have : x = [] := List.length_eq_zero.mp (Nat.le_zero.mp hn)
    subst this
    cases m <;> simp [replaceAllAux]
  | succ n ih =>
    cases x with
    | nil => cases m <;> simp [replaceAllAux]
    | cons c rest =>
      cases m with
      | zero => simp at hm
      | succ m =>
        simp only [List.length_cons, Nat.add_le_add_iff_right] at hn hm
        simp only [replaceAllAux]
        cases hm2 : re (c :: rest) with
        | some tail =>
          have hl := hre _ _ hm2
          simp only [List.length_cons] at hl
          simp only
          rw [ih m tail (by omega) (by omega)]
        | none =>
          simp only
          rw [ih m rest hn hm]

theorem ReplaceAllString_cons (re : List Char → Option (List Char)) (repl : List Char)
    (hre : ∀ l tail, re l = some tail → tail.length < l.length) (c : Char) (rest : List Char) :
    ReplaceAllString re (c :: rest) repl =
      match re (c :: rest) with
      | some tail => repl ++ ReplaceAllString re tail repl
      | none => c :: ReplaceAllString re rest repl := by
  simp only [ReplaceAllString, List.length_cons, replaceAllAux]
  cases hm : re (c :: rest) with
  | some tail =>
    have hl := hre _ _ hm
    simp only [List.length_cons] at hl
    simp only
    rw [replaceAllAux_fuel re repl hre rest.length tail.length tail (by omega) (Nat.le_refl _)]
  | none => rfl

theorem matchSpaces_length (l tail : List Char) (h : matchSpaces l = some tail) :
    tail.length < l.length := by
  cases l with
  | nil => simp [matchSpaces] at h
  | cons c rest =>
    simp only [matchSpaces] at h
    split at h
    · simp only [Option.some.injEq] at h
      subst h
      have hle := (List.dropWhile_sublist (l := rest) isSpace).length_le
      simp only [List.length_cons]
      omega
    · simp at h

theorem removeGaps_nil : ReplaceAllString matchTagGap [] ['>', '<'] = [] := rfl

theorem removeGaps_cons_none (c : Char) (rest : List Char)
    (h : matchTagGap (c :: rest) = none) :
    ReplaceAllString matchTagGap (c :: rest) ['>', '<'] =
      c :: ReplaceAllString matchTagGap rest ['>', '<'] := by
  rw [ReplaceAllString_cons _ _ matchTagGap_length, h]

theorem removeGaps_cons_some (c : Char) (rest tail : List Char)
    (h : matchTagGap (c :: rest) = some tail) :
    ReplaceAllString matchTagGap (c :: rest) ['>', '<'] =
      '>' :: '<' :: ReplaceAllString matchTagGap tail ['>', '<'] := by
  rw [ReplaceAllString_cons _ _ matchTagGap_length, h]
  rfl

theorem collapse_nil : ReplaceAllString matchSpaces [] [' '] = [] := rfl

theorem collapse_cons_space (c : Char) (rest : List Char) (h : isSpace c = true) :
    ReplaceAllString matchSpaces (c :: rest) [' '] =
      ' ' :: ReplaceAllString matchSpaces (rest.dropWhile isSpace) [' '] := by
  rw [ReplaceAllString_cons _ _ matchSpaces_length]
  simp [matchSpaces, h]

theorem collapse_cons_other (c : Char) (rest : List Char) (h : ¬ isSpace c = true) :
    ReplaceAllString matchSpaces (c :: rest) [' '] =
      c :: ReplaceAllString matchSpaces rest [' '] := by
  rw [ReplaceAllString_cons _ _ matchSpaces_length]
  simp [matchSpaces, h]

theorem dropWhile_isSpace_append_cons (x y : List Char) (c : Char) (hc : ¬ isSpace c = true) :
    (x ++ c :: y).dropWhile isSpace = x.dropWhile isSpace ++ c :: y := by
  induction x with
  | nil => simp [List.dropWhile, hc]
  | cons a x ih =>
    by_cases ha : isSpace a = true
    · simp [List.dropWhile, ha, ih]
    · simp [List.dropWhile, ha]

theorem startsWithSpace_append_cons (x y : List Char) (c : Char) (hc : ¬ isSpace c = true) :
    startsWithSpace (x ++ c :: y) = startsWithSpace x := by
  cases x with
  | nil => simpa [startsWithSpace] using hc
  | cons a x => rfl

theorem matchTagGap_append_gt (c : Char) (x z : List Char) :
    matchTagGap (c :: (x ++ '>' :: z)) = (matchTagGap (c :: x)).map (· ++ '>' :: z) := by
  have hgt : ¬ isSpace '>' = true := by decide
  simp only [matchTagGap, startsWithSpace_append_cons x z '>' hgt,
    dropWhile_isSpace_append_cons x z '>' hgt]
  split
  · cases hd : x.dropWhile isSpace with
    | nil => simp
    | cons d t =>
      by_cases hlt : d = '<' <;> simp [hlt]
  · rfl

theorem removeGaps_append_gt (n : Nat) (x z : List Char) (hx : x.length ≤ n)
    (hz : startsWithSpace z = false) :
    ReplaceAllString matchTagGap (x ++ '>' :: z) ['>', '<'] =
      ReplaceAllString matchTagGap x ['>', '<'] ++
        '>' :: ReplaceAllString matchTagGap z ['>', '<'] := by
  induction n generalizing x with
  | zero =>
    have : x = [] := List.length_eq_zero.mp (Nat.le_zero.mp hx)
    subst this
    simp only [List.nil_append, removeGaps_nil]
    apply removeGaps_cons_none
    simp [matchTagGap, hz]
  | succ n ih =>
    cases x with
    | nil =>
      simp only [List.nil_append, removeGaps_nil]
      apply removeGaps_cons_none
      simp [matchTagGap, hz]
    | cons c rest =>
      have hr : rest.length ≤ n := by simpa using hx
      have hm := matchTagGap_append_gt c rest z
      cases hc : matchTagGap (c :: rest) with
      | some tail =>
        rw [hc] at hm
        have hl := matchTagGap_length _ _ hc
        simp only [List.length_cons] at hl
        rw [List.cons_append, removeGaps_cons_some _ _ _ hm, removeGaps_cons_some _ _ _ hc,
          ih tail (by omega)]
        rfl
      | none =>
        rw [hc] at hm
        rw [List.cons_append, removeGaps_cons_none _ _ hm, removeGaps_cons_none _ _ hc,
          ih rest hr]
        rfl

theorem collapse_append_cons (n : Nat) (x y : List Char) (c : Char) (hx : x.length ≤ n)
    (hc : ¬ isSpace c = true) :
    ReplaceAllString matchSpaces (x ++ c :: y) [' '] =
      ReplaceAllString matchSpaces x [' '] ++ c :: ReplaceAllString matchSpaces y [' '] := by
  induction n generalizing x with
  | zero =>
    have : x = [] := List.length_eq_zero.mp (Nat.le_zero.mp hx)
    subst this
    simp only [List.nil_append, collapse_nil]
    exact collapse_cons_other c y hc
  | succ n ih =>
    cases x with
    | nil =>
      simp only [List.nil_append, collapse_nil]
      exact collapse_cons_other c y hc
    | cons a rest =>
      have hr : rest.length ≤ n := by simpa using hx
      by_cases ha : isSpace a = true
      · have hle := (List.dropWhile_sublist (l := rest) isSpace).length_le
        rw [List.cons_append, collapse_cons_space _ _ ha, collapse_cons_space _ _ ha,
          dropWhile_isSpace_append_cons rest y c hc, ih _ (by omega)]
        rfl
      · rw [List.cons_append, collapse_cons_other _ _ ha, collapse_cons_other _ _ ha,
          ih rest hr]
        rfl

/-- The cleaning step works on both sides of a `>` separately when the text
after the `>` does not begin with whitespace. -/
theorem cleanChars_append_gt (x z : List Char) (hz : startsWithSpace z = false) :
    cleanChars (x ++ '>' :: z) = cleanChars x ++ '>' :: cleanChars z := by
  simp only [cleanChars]
  rw [removeGaps_append_gt x.length x z (Nat.le_refl _) hz,
    collapse_append_cons _ _ _ '>' (Nat.le_refl _) (by decide)]

/-- The cleaning step copies a character that is neither `>` nor whitespace. -/
theorem cleanChars_cons (c : Char) (z : List Char) (hgt : c ≠ '>')
    (hc : ¬ isSpace c = true) :
    cleanChars (c :: z) = c :: cleanChars z := by
  simp only [cleanChars]
  rw [removeGaps_cons_none c z (by simp [matchTagGap, hgt]), collapse_cons_other _ _ hc]

/-- The cleaning step works separately on a text that ends with `>` and on a
text after it that does not begin with whitespace. -/
theorem cleanChars_split (x z : List Char) (hx : x.getLast? = some '>')
    (hz : startsWithSpace z = false) :
    cleanChars (x ++ z) = cleanChars x ++ cleanChars z := by
  obtain ⟨y, rfl⟩ := List.getLast?_eq_some_iff.mp hx
  have h1 := cleanChars_append_gt y z hz
  have h2 := cleanChars_append_gt y [] rfl
  have h3 : cleanChars [] = [] := rfl
  simp only [List.append_assoc, List.singleton_append] at h1 h2 ⊢
  rw [h1, h2, h3]
  simp

theorem createRequest_eq_clean (soap : SOAP) (nonce : List Nat) (timestamp : String) :
    soap.createRequest nonce timestamp = cleanSOAPMessage (soap.rawRequest nonce timestamp) :=
  rfl

theorem createUserToken_head (soap : SOAP) (nonce : List Nat) (timestamp : String) :
    startsWithSpace (soap.createUserToken nonce timestamp).data = false := by
  simp only [SOAP.createUserToken, String.data_append]
  rfl

theorem createUserToken_last (soap : SOAP) (nonce : List Nat) (timestamp : String) :
    (soap.createUserToken nonce timestamp).data.getLast? = some '>' := by
  simp only [SOAP.createUserToken, String.data_append, List.getLast?_append]
  rfl

theorem envelopeStartTag_last (xmlns : List String) :
    (envelopeStartTag xmlns).data.getLast? = some '>' := by
  simp only [envelopeStartTag, String.data_append, List.getLast?_append]
  rfl

theorem cleanChars_gt (z : List Char) : ∃ r, cleanChars ('>' :: z) = '>' :: r := by
  simp only [cleanChars]
  cases h : matchTagGap ('>' :: z) with
  | some tail =>
    rw [removeGaps_cons_some _ _ _ h, collapse_cons_other _ _ (by decide)]
    exact ⟨_, rfl⟩
  | none =>
    rw [removeGaps_cons_none _ _ h, collapse_cons_other _ _ (by decide)]
    exact ⟨_, rfl⟩

/-- The cleaned `s:Body` element begins with its start tag. -/
theorem cleanChars_bodyElement (z : List Char) :
    ∃ r, cleanChars ("<s:Body>".data ++ z) = "<s:Body>".data ++ r := by
  obtain ⟨r, hr⟩ := cleanChars_gt z
  refine ⟨r, ?_⟩
  show cleanChars ('<' :: 's' :: ':' :: 'B' :: 'o' :: 'd' :: 'y' :: '>' :: z) = _
  rw [cleanChars_cons _ _ (by decide) (by decide), cleanChars_cons _ _ (by decide) (by decide),
    cleanChars_cons _ _ (by decide) (by decide), cleanChars_cons _ _ (by decide) (by decide),
    cleanChars_cons _ _ (by decide) (by decide), cleanChars_cons _ _ (by decide) (by decide),
    cleanChars_cons _ _ (by decide) (by decide), hr]
  rfl

/-- The request before cleaning: start tag, header element when there is a
user, `s:Body` element and the end tag of the envelope. -/
theorem rawRequest_data (soap : SOAP) (nonce : List Nat) (timestamp : String) :
    (soap.rawRequest nonce timestamp).data =
      (envelopeStartTag soap.XMLNs).data ++
        ((if soap.User ≠ "" then
            "<s:Header>".data ++
              ((soap.createUserToken nonce timestamp).data ++ "</s:Header>".data)
          else []) ++
          ("<s:Body>".data ++ (soap.Body.data ++ "</s:Body></s:Envelope>".data))) := by
  simp only [SOAP.rawRequest, envelopeStartTag]
  split <;> simp [String.data_append, List.append_assoc]

/-- The cleaned request: cleaned start tag, header element around the cleaned
token when there is a user, cleaned `s:Body` element with the end tag. -/
theorem createRequest_data (soap : SOAP) (nonce : List Nat) (timestamp : String) :
    (soap.createRequest nonce timestamp).data =
      cleanChars (envelopeStartTag soap.XMLNs).data ++
        ((if soap.User ≠ "" then
            "<s:Header>".data ++
              (cleanChars (soap.createUserToken nonce timestamp).data ++ "</s:Header>".data)
          else []) ++
          cleanChars ("<s:Body>".data ++ (soap.Body.data ++ "</s:Body></s:Envelope>".data))) := by
  rw [createRequest_eq_clean]
  show cleanChars (soap.rawRequest nonce timestamp).data = _
  rw [rawRequest_data]
  have hlast := envelopeStartTag_last soap.XMLNs
  have hT1 := createUserToken_head soap nonce timestamp
  have hT2 := createUserToken_last soap nonce timestamp
  generalize (soap.createUserToken nonce timestamp).data = T at hT1 hT2 ⊢
  generalize (envelopeStartTag soap.XMLNs).data = S at hlast ⊢
  generalize hB : "<s:Body>".data ++ (soap.Body.data ++ "</s:Body></s:Envelope>".data) = B
  have hB0 : startsWithSpace B = false := by rw [← hB]; rfl
  have hT0 : startsWithSpace (T ++ ("</s:Header>".data ++ B)) = false := by
    cases T with
    | nil => rfl
    | cons c t => exact hT1
  have h1 : cleanChars "<s:Header>".data = "<s:Header>".data := by decide
  have h2 : cleanChars "</s:Header>".data = "</s:Header>".data := by decide
  by_cases hu : soap.User ≠ ""
  · rw [if_pos hu, if_pos hu]
    rw [cleanChars_split S
      ("<s:Header>".data ++ (T ++ "</s:Header>".data) ++ B) hlast rfl]
    rw [List.append_assoc, List.append_assoc,
      cleanChars_split "<s:Header>".data (T ++ ("</s:Header>".data ++ B)) rfl hT0,
      cleanChars_split T ("</s:Header>".data ++ B) hT2 rfl,
      cleanChars_split "</s:Header>".data B rfl hB0, h1, h2]
    simp only [List.append_assoc]
  · rw [if_neg hu, if_neg hu]
    rw [List.nil_append, List.nil_append, cleanChars_split S B hlast hB0]

/-! ## Texts that the cleaning step leaves unchanged -/

theorem matchTagGap_length3 (l tail : List Char) (h : matchTagGap l = some tail) :
    tail.length + 3 ≤ l.length := by
  cases l with
  | nil => simp [matchTagGap] at h
  | cons c rest =>
    simp only [matchTagGap] at h
    split at h
    · rename_i hc
      have hle := (List.dropWhile_sublist (l := rest) isSpace).length_le
      split at h
      · simp at h
      · rename_i d t hd
        split at h
        · rename_i hlt
          simp only [Option.some.injEq] at h
          subst h
          have hne : rest.dropWhile isSpace ≠ rest := by
            intro heq
            cases rest with
            | nil => simp at hd
            | cons a r =>
              have ha : isSpace a = true := hc.2
              rw [List.dropWhile_cons_of_pos ha] at heq
              have := (List.dropWhile_sublist (l := r) isSpace).length_le
              rw [heq] at this
              simp at this
          have hlt2 : (rest.dropWhile isSpace).length < rest.length := by
            rcases Nat.lt_or_ge (rest.dropWhile isSpace).length rest.length with h1 | h1
            · exact h1
            · exact absurd ((List.dropWhile_sublist (l := rest) isSpace).eq_of_length_le h1) hne
          rw [hd] at hlt2
          simp only [List.length_cons] at hlt2 ⊢
          omega
        · simp at h
    · simp at h

theorem removeGaps_length (n : Nat) (x : List Char) (hx : x.length ≤ n) :
    (ReplaceAllString matchTagGap x ['>', '<']).length ≤ x.length ∧
      ((ReplaceAllString matchTagGap x ['>', '<']).length = x.length →
        ReplaceAllString matchTagGap x ['>', '<'] = x) := by
  induction n generalizing x with
  | zero =>
    have : x = [] := List.length_eq_zero.mp (Nat.le_zero.mp hx)
    subst this
    simp [removeGaps_nil]
  | succ n ih =>
    cases x with
    | nil => simp [removeGaps_nil]
    | cons c rest =>
      have hr : rest.length ≤ n := by simpa using hx
      cases hc : matchTagGap (c :: rest) with
      | some tail =>
        have hl := matchTagGap_length3 _ _ hc
        simp only [List.length_cons] at hl
        have hi := (ih tail (by omega)).1
        rw [removeGaps_cons_some _ _ _ hc]
        simp only [List.length_cons]
        constructor
        · omega
        · intro h
          omega
      | none =>
        have hi := ih rest hr
        rw [removeGaps_cons_none _ _ hc]
        simp only [List.length_cons, Nat.add_le_add_iff_right, Nat.add_right_cancel_iff,
          List.cons.injEq, true_and]
        exact hi

theorem collapse_length (n : Nat) (x : List Char) (hx : x.length ≤ n) :
    (ReplaceAllString matchSpaces x [' ']).length ≤ x.length := by
  induction n generalizing x with
  | zero =>
    have : x = [] := List.length_eq_zero.mp (Nat.le_zero.mp hx)
    subst this
    simp [collapse_nil]
  | succ n ih =>
    cases x with
    | nil => simp [collapse_nil]
    | cons c rest =>
      have hr : rest.length ≤ n := by simpa using hx
      by_cases hc : isSpace c = true
      · have hle := (List.dropWhile_sublist (l := rest) isSpace).length_le
        have hi := ih (rest.dropWhile isSpace) (by omega)
        rw [collapse_cons_space _ _ hc]
        simp only [List.length_cons]
        omega
      · have hi := ih rest hr
        rw [collapse_cons_other _ _ hc]
        simp only [List.length_cons]
        omega

/-- A text that the cleaning step leaves unchanged is left unchanged by each of
its two replacements. -/
theorem cleanChars_fixed (x : List Char) (h : cleanChars x = x) :
    ReplaceAllString matchTagGap x ['>', '<'] = x ∧ ReplaceAllString matchSpaces x [' '] = x := by
  have h1 := removeGaps_length x.length x (Nat.le_refl _)
  have h2 := collapse_length _ (ReplaceAllString matchTagGap x ['>', '<']) (Nat.le_refl _)
  have h3 : (cleanChars x).length = x.length := by rw [h]
  simp only [cleanChars] at h h3
  have h4 : ReplaceAllString matchTagGap x ['>', '<'] = x := h1.2 (by omega)
  rw [h4] at h
  exact ⟨h4, h⟩

theorem matchTagGap_append_lt (c : Char) (u w : List Char) :
    matchTagGap (c :: (u ++ '<' :: w)) =
      (matchTagGap (c :: (u ++ ['<']))).map (· ++ w) := by
  have hlt : ¬ isSpace '<' = true := by decide
  simp only [matchTagGap, startsWithSpace_append_cons u w '<' hlt,
    startsWithSpace_append_cons u [] '<' hlt,
    dropWhile_isSpace_append_cons u w '<' hlt, dropWhile_isSpace_append_cons u [] '<' hlt]
  split
  · cases hd : u.dropWhile isSpace with
    | nil => simp
    | cons d t =>
      by_cases hd2 : d = '<' <;> simp [hd2]
  · rfl

theorem removeGaps_append_lt (n : Nat) (u w : List Char) (hu : u.length ≤ n) :
    ReplaceAllString matchTagGap (u ++ '<' :: w) ['>', '<'] =
      ReplaceAllString matchTagGap (u ++ ['<']) ['>', '<'] ++
        ReplaceAllString matchTagGap w ['>', '<'] := by
  have hlt : ¬ isSpace '<' = true := by decide
  have hbase : ∀ v, matchTagGap ('<' :: v) = none := by
    intro v
    simp [matchTagGap]
  induction n generalizing u with
  | zero =>
    have : u = [] := List.length_eq_zero.mp (Nat.le_zero.mp hu)
    subst this
    simp only [List.nil_append]
    rw [removeGaps_cons_none _ _ (hbase w), removeGaps_cons_none _ _ (hbase []), removeGaps_nil]
    rfl
  | succ n ih =>
    cases u with
    | nil =>
      simp only [List.nil_append]
      rw [removeGaps_cons_none _ _ (hbase w), removeGaps_cons_none _ _ (hbase []),
        removeGaps_nil]
      rfl
    | cons c rest =>
      have hr : rest.length ≤ n := by simpa using hu
      have hm := matchTagGap_append_lt c rest w
      cases h0 : matchTagGap (c :: (rest ++ ['<'])) with
      | none =>
        rw [h0] at hm
        rw [List.cons_append, List.cons_append, removeGaps_cons_none _ _ hm,
          removeGaps_cons_none _ _ h0, ih rest hr]
        rfl
      | some tail0 =>
        rw [h0] at hm
        simp only [Option.map_some'] at hm
        rw [List.cons_append, List.cons_append, removeGaps_cons_some _ _ _ hm,
          removeGaps_cons_some _ _ _ h0]
        -- the text left after the match is empty or ends with the final `<`
        have hshape : tail0 = [] ∨ ∃ t, tail0 = t ++ ['<'] ∧ t.length ≤ n := by
          simp only [matchTagGap, startsWithSpace_append_cons rest [] '<' hlt,
            dropWhile_isSpace_append_cons rest [] '<' hlt] at h0
          split at h0
          · cases hd : rest.dropWhile isSpace with
            | nil =>
              rw [hd] at h0
              simp only [List.nil_append, if_true, Option.some.injEq] at h0
              exact Or.inl h0.symm
            | cons d t =>
              rw [hd] at h0
              simp only [List.cons_append] at h0
              split at h0
              · simp only [Option.some.injEq] at h0
                have hle := (List.dropWhile_sublist (l := rest) isSpace).length_le
                rw [hd] at hle
                simp only [List.length_cons] at hle
                exact Or.inr ⟨t, h0.symm, by omega⟩
              · simp at h0
          · simp at h0
        rcases hshape with h1 | ⟨t, h1, h2⟩
        · subst h1
          simp [removeGaps_nil]
        · subst h1
          have := ih t h2
          simp only [List.append_assoc, List.singleton_append] at this ⊢
          rw [this]
          rfl

/-- A body that the cleaning step leaves unchanged between `>` and `<` is left
unchanged in front of any text that follows the `<`. -/
theorem cleanChars_fixed_body (body w : List Char)
    (h : cleanChars ('>' :: (body ++ ['<'])) = '>' :: (body ++ ['<'])) :
    cleanChars ('>' :: (body ++ '<' :: w)) = '>' :: (body ++ '<' :: cleanChars w) := by
  obtain ⟨hg, hc⟩ := cleanChars_fixed _ h
  have hlt : ¬ isSpace '<' = true := by decide
  have hc2 := collapse_append_cons ('>' :: body).length ('>' :: body) [] '<' (Nat.le_refl _) hlt
  rw [List.cons_append, hc, collapse_nil] at hc2
  have hc3 : ReplaceAllString matchSpaces ('>' :: body) [' '] = '>' :: body := by
    have h5 : ('>' :: body) ++ ['<'] =
        ReplaceAllString matchSpaces ('>' :: body) [' '] ++ ['<'] := by
      simpa using hc2
    exact (List.append_cancel_right h5).symm
  have hg2 := removeGaps_append_lt ('>' :: body).length ('>' :: body) w (Nat.le_refl _)
  rw [List.cons_append, List.cons_append, hg] at hg2
  simp only [cleanChars]
  rw [hg2]
  have hc4 := collapse_append_cons ('>' :: body).length ('>' :: body)
    (ReplaceAllString matchTagGap w ['>', '<']) '<' (Nat.le_refl _) hlt
  simp only [List.cons_append, List.append_assoc, List.singleton_append,
    List.nil_append] at hc4 ⊢
  rw [hc4, hc3]
  rfl

/-- C7: the request is the cleaned Envelope start tag, then, only when the user
is not empty, one `s:Header` element around the cleaned security token, then
directly the `s:Body` element; `rest` is what follows `<s:Body>` in the cleaned
`s:Body` element with the end tag of the envelope. -/
theorem createRequest_header (soap : SOAP) (nonce : List Nat) (timestamp : String) :
    ∃ rest : String,
      cleanSOAPMessage ("<s:Body>" ++ soap.Body ++ "</s:Body></s:Envelope>") =
        "<s:Body>" ++ rest ∧
      soap.createRequest nonce timestamp =
        cleanSOAPMessage (envelopeStartTag soap.XMLNs) ++
          (if soap.User ≠ "" then
            "<s:Header>" ++ cleanSOAPMessage (soap.createUserToken nonce timestamp) ++
              "</s:Header>"
          else "") ++
          ("<s:Body>" ++ rest) := by
  obtain ⟨r, hr⟩ := cleanChars_bodyElement (soap.Body.data ++ "</s:Body></s:Envelope>".data)
  refine ⟨String.mk r, ?_, ?_⟩
  · apply String.ext
    simp only [cleanSOAPMessage, String.data_append, List.append_assoc]
    exact hr
  · apply String.ext
    rw [createRequest_data, hr]
    by_cases hu : soap.User ≠ ""
    · simp only [if_pos hu, cleanSOAPMessage, String.data_append, List.append_assoc]
    · simp only [if_neg hu, cleanSOAPMessage, String.data_append, List.append_assoc]

/-- C6, as the claim states it: the body `<tt:Name>Front  Door</tt:Name>`, with
two blanks, comes out with one blank, so the request does not contain the body
character for character between `<s:Body>` and `</s:Body>`. -/
theorem createRequest_body_sample :
    (MakeRequest "<tt:Name>Front  Door</tt:Name>" [] "" "" 0).createRequest [] "" =
      "<?xml version=\"1.0\" encoding=\"UTF-8\"?><s:Envelope xmlns:s=\"http://www.w3.org/2003/05/soap-envelope\"><s:Body><tt:Name>Front Door</tt:Name></s:Body></s:Envelope>" ∧
    ¬ List.IsInfix "<s:Body><tt:Name>Front  Door</tt:Name></s:Body>".data
      ((MakeRequest "<tt:Name>Front  Door</tt:Name>" [] "" "" 0).createRequest [] "").data := by
  decide

/-- C6, amended: when the cleaning step leaves the body unchanged between a `>`
and a `<`, the request ends with `<s:Body>`, the body character for character,
`</s:Body>` and the end tag of the envelope, after the cleaned start tag and the
header element (if any). -/
theorem createRequest_body (soap : SOAP) (nonce : List Nat) (timestamp : String)
    (hfix : cleanSOAPMessage (">" ++ soap.Body ++ "<") = ">" ++ soap.Body ++ "<") :
    soap.createRequest nonce timestamp =
      cleanSOAPMessage (envelopeStartTag soap.XMLNs) ++
        (if soap.User ≠ "" then
          "<s:Header>" ++ cleanSOAPMessage (soap.createUserToken nonce timestamp) ++
            "</s:Header>"
        else "") ++
        ("<s:Body>" ++ soap.Body ++ "</s:Body>" ++ "</s:Envelope>") := by
  have hfix2 : cleanChars ('>' :: (soap.Body.data ++ ['<'])) = '>' :: (soap.Body.data ++ ['<']) := by
    have := congrArg String.data hfix
    simpa [cleanSOAPMessage, String.data_append] using this
  have hw : cleanChars "/s:Body></s:Envelope>".data = "/s:Body></s:Envelope>".data := by decide
  have hbody : cleanChars ("<s:Body>".data ++ (soap.Body.data ++ "</s:Body></s:Envelope>".data)) =
      "<s:Body>".data ++ (soap.Body.data ++ "</s:Body></s:Envelope>".data) := by
    show cleanChars ('<' :: 's' :: ':' :: 'B' :: 'o' :: 'd' :: 'y' :: '>' ::
      (soap.Body.data ++ '<' :: "/s:Body></s:Envelope>".data)) = _
    rw [cleanChars_cons _ _ (by decide) (by decide), cleanChars_cons _ _ (by decide) (by decide),
      cleanChars_cons _ _ (by decide) (by decide), cleanChars_cons _ _ (by decide) (by decide),
      cleanChars_cons _ _ (by decide) (by decide), cleanChars_cons _ _ (by decide) (by decide),
      cleanChars_cons _ _ (by decide) (by decide),
      cleanChars_fixed_body _ _ hfix2, hw]
    rfl
  apply String.ext
  rw [createRequest_data, hbody]
  by_cases hu : soap.User ≠ ""
  · simp only [if_pos hu, cleanSOAPMessage, String.data_append, List.append_assoc]
    rfl
  · simp only [if_neg hu, cleanSOAPMessage, String.data_append, List.append_assoc]
    rfl

/-- The amended C6 on a `GetScopes` request without credentials. -/
theorem createRequest_body_witness :
    cleanSOAPMessage (">" ++
        (MakeRequest "<tds:GetScopes xmlns:tds=\"http://www.onvif.org/ver10/device/wsdl\"/>"
          ["xmlns:tt=\"http://www.onvif.org/ver10/schema\""] "" "" 0).Body ++ "<") =
      ">" ++ (MakeRequest "<tds:GetScopes xmlns:tds=\"http://www.onvif.org/ver10/device/wsdl\"/>"
          ["xmlns:tt=\"http://www.onvif.org/ver10/schema\""] "" "" 0).Body ++ "<" ∧
    (MakeRequest "<tds:GetScopes xmlns:tds=\"http://www.onvif.org/ver10/device/wsdl\"/>"
        ["xmlns:tt=\"http://www.onvif.org/ver10/schema\""] "" "" 0).createRequest [] "" =
      cleanSOAPMessage (envelopeStartTag ["xmlns:tt=\"http://www.onvif.org/ver10/schema\""]) ++
        "" ++
        ("<s:Body>" ++
          "<tds:GetScopes xmlns:tds=\"http://www.onvif.org/ver10/device/wsdl\"/>" ++
          "</s:Body>" ++ "</s:Envelope>") :=
  ⟨by decide,
    createRequest_body
      (MakeRequest "<tds:GetScopes xmlns:tds=\"http://www.onvif.org/ver10/device/wsdl\"/>"
        ["xmlns:tt=\"http://www.onvif.org/ver10/schema\""] "" "" 0) [] "" (by decide)⟩

/-- C10: the output of `cleanSOAPMessage`, and the request that `createRequest`
returns after the same cleaning step, have no run of whitespace between tags,
that is, no `>` followed by one or more whitespace characters followed by
`<`. -/
theorem clean_no_gap (message : String) (soap : SOAP) (nonce : List Nat)
    (timestamp : String) :
    ¬ HasTagGap (cleanSOAPMessage message).data ∧
      ¬ HasTagGap (soap.createRequest nonce timestamp).data := by
  constructor
  · exact cleanChars_no_gap message.data
  · rw [createRequest_eq_clean]
    exact cleanChars_no_gap (soap.rawRequest nonce timestamp).data

/-! ## The security token -/

theorem sha1Sum_abc :
    sha1Sum (utf8Bytes "abc") =
      [0xa9, 0x99, 0x3e, 0x36, 0x47, 0x06, 0x81, 0x6a, 0xba, 0x3e, 0x25, 0x71, 0x78, 0x50,
        0xc2, 0x6c, 0x9c, 0xd0, 0xd8, 0x9d] := by
  decide

theorem sha1Sum_two_blocks :
    sha1Sum (utf8Bytes "abcdbcdecdefdefgefghfghighijhijkijkljklmklmnlmnomnopnopq") =
      [0x84, 0x98, 0x3e, 0x44, 0x1c, 0x3b, 0xd2, 0x6e, 0xba, 0xae, 0x4a, 0xa1, 0xf9, 0x51,
        0x29, 0xe5, 0xe5, 0x46, 0x70, 0xf1] := by
  decide

theorem EncodeToString_samples :
    String.mk (EncodeToString (utf8Bytes "foobar")) = "Zm9vYmFy" ∧
      String.mk (EncodeToString (utf8Bytes "fooba")) = "Zm9vYmE=" ∧
      String.mk (EncodeToString (utf8Bytes "foob")) = "Zm9vYg==" := by
  decide

/-- The digest and the nonce of the token for the nonce bytes 0 to 15, the
timestamp `2020-01-01T00:00:00Z` and the password `secret`. -/
theorem passwordDigest_sample :
    String.mk (EncodeToString (sha1Sum (List.range 16 ++ utf8Bytes "2020-01-01T00:00:00Z" ++
        utf8Bytes "secret"))) = "veE5OX1g/EThqxj4VHOiSYWdfeQ=" ∧
      String.mk (EncodeToString (List.range 16)) = "AAECAwQFBgcICQoLDA0ODw==" := by
  decide

/-- C5: in the token built by `createUserToken` the content of `Password` is
the base64 text of the SHA-1 digest of the raw nonce bytes followed by the
bytes of the timestamp and of the password, and the content of `Nonce` is the
base64 text of the nonce bytes; two requests with the same user and password
get the same token for the same nonce and timestamp. -/
theorem createUserToken_digest (soap : SOAP) (nonce : List Nat) (timestamp : String) :
    soap.createUserToken nonce timestamp =
      "<Security s:mustUnderstand=\"1\" xmlns=\"http://docs.oasis-open.org/wss/2004/01/oasis-200401-wss-wssecurity-secext-1.0.xsd\">\n  \t\t<UsernameToken>\n    \t\t<Username>" ++
        soap.User ++
        "</Username>\n    \t\t<Password Type=\"http://docs.oasis-open.org/wss/2004/01/oasis-200401-wss-username-token-profile-1.0#PasswordDigest\">" ++
        String.mk (EncodeToString
          (sha1Sum (nonce ++ utf8Bytes timestamp ++ utf8Bytes soap.Password))) ++
        "</Password>\n    \t\t<Nonce EncodingType=\"http://docs.oasis-open.org/wss/2004/01/oasis-200401-wss-soap-message-security-1.0#Base64Binary\">" ++
        String.mk (EncodeToString nonce) ++
        "</Nonce>\n    \t\t<Created xmlns=\"http://docs.oasis-open.org/wss/2004/01/oasis-200401-wss-wssecurity-utility-1.0.xsd\">" ++
        timestamp ++
        "</Created>\n\t\t</UsernameToken>\n\t</Security>" ∧
    ∀ (body body2 : String) (xmlns xmlns2 : List String) (tokenAge tokenAge2 : Int),
      (MakeRequest body xmlns soap.User soap.Password tokenAge).createUserToken nonce timestamp =
        (MakeRequest body2 xmlns2 soap.User soap.Password tokenAge2).createUserToken nonce
          timestamp := by
  constructor
  · rfl
  · intros
    rfl

/-! ## discover.go: what a well-formed datagram can return -/

theorem splitChar_ne_nil (sep : Char) (l : List Char) : splitChar sep l ≠ [] := by
  induction l with
  | nil => simp [splitChar]
  | cons c rest ih =>
    unfold splitChar
    split
    · simp
    · split <;> simp

theorem SplitBlank_ne_nil (s : String) : SplitBlank s ≠ [] := by
  simp [SplitBlank, splitChar_ne_nil]

theorem ValueForPathString_error (mv : Map) (path : String) (err : Error)
    (h : (ValueForPathString mv path).2 = some err) :
    (ValueForPathString mv path).1 = "" := by
  unfold ValueForPathString at h ⊢
  split <;> simp_all

theorem keys_correlation :
    (let keys := (splitChar '.' "Envolope.Header.RelatesTo".data).map String.mk
     if keys.getLast? = some "" then keys.dropLast else keys) =
      ["Envolope", "Header", "RelatesTo"] := by
  decide

/-- A document has one root element; whatever it is, the Device that the parser
returns is the zero Device: under a root other than `Envolope` the correlation
lookup fails, and under the root `Envolope` no path under `Envelope` has a
value. -/
theorem getDevice_single_root (messageID root : String) (v : Value) :
    (GetDeviceFromDiscoverProbeResponse messageID (.ok [(root, v)])).1 =
      { ID := "", Name := "", XAddr := "" } := by
  by_cases hroot : root = "Envolope"
  · subst hroot
    simp only [GetDeviceFromDiscoverProbeResponse]
    split
    · split <;> rfl
    · rfl
  · have hlook : ValueForPathString [(root, v)] "Envolope.Header.RelatesTo" =
        ("", some (Error.New "ValueForPath: path not found")) := by
      have hne : ("Envolope" == root) = false := by
        simpa using fun h => hroot h.symm
      simp only [ValueForPathString, ValuesForPath, keys_correlation, valuesForKeyPath,
        List.lookup, hne]
    simp only [GetDeviceFromDiscoverProbeResponse, hlook]
    split <;> rfl

/-- On a datagram that is well-formed XML the parser returns a nil error or,
for a non-empty message identifier, `errWrongDiscoveryResponse`: never an
error that ends the round. -/
theorem getDevice_wellFormed (messageID : String) (hid : messageID ≠ "") (mapXML : Map) :
    (GetDeviceFromDiscoverProbeResponse messageID (.ok mapXML)).2 = none ∨
      (GetDeviceFromDiscoverProbeResponse messageID (.ok mapXML)).2 =
        some errWrongDiscoveryResponse := by
  simp only [GetDeviceFromDiscoverProbeResponse]
  split
  · rename_i responseID err hv
    have h1 := ValueForPathString_error mapXML "Envolope.Header.RelatesTo" err (by rw [hv])
    rw [hv] at h1
    simp only at h1
    subst h1
    simp [hid]
  · simp [SplitBlank_ne_nil]

/-- The error `Device does not have any xAddr` is never returned for a datagram
that is well-formed XML. -/
theorem getDevice_never_no_xaddr (messageID : String) (mapXML : Map) :
    (GetDeviceFromDiscoverProbeResponse messageID (.ok mapXML)).2 ≠
      some (Error.New "Device does not have any xAddr") := by
  simp only [GetDeviceFromDiscoverProbeResponse]
  split
  · rename_i responseID err hv
    split
    · simp [errWrongDiscoveryResponse]
    · simp only [ne_eq, Option.some.injEq]
      intro he
      subst he
      unfold ValueForPathString at hv
      split at hv <;> simp at hv
  · simp [SplitBlank_ne_nil]

theorem receiveLoop_malformed (requestID : String) (hid : requestID ≠ "")
    (before : List Map) (text : String) (after : List Receive) (acc : List Device) :
    receiveLoop requestID acc
        (before.map (fun m => Receive.datagram (.ok m)) ++
          Receive.datagram (.error text) :: after) =
      ([], some (Error.New text)) := by
  induction before generalizing acc with
  | nil =>
    simp [receiveLoop, GetDeviceFromDiscoverProbeResponse, errWrongDiscoveryResponse]
  | cons m rest ih =>
    have hno : ¬ ((GetDeviceFromDiscoverProbeResponse requestID (.ok m)).2 ≠ none ∧
        (GetDeviceFromDiscoverProbeResponse requestID (.ok m)).2 ≠
          some errWrongDiscoveryResponse) := by
      rcases getDevice_wellFormed requestID hid m with h | h <;> simp [h]
    simp only [List.map_cons, List.cons_append, receiveLoop]
    rw [if_neg hno]
    exact ih _

/-! ## discover.go on concrete responses -/

/-- C2: on the well-formed response that answers the round (correlation field
equal to the message identifier, service address
`http://10.0.0.5/onvif/device_service`, scope `.../name/Front_Door`) the code
returns the zero Device and `errWrongDiscoveryResponse`, not the Device
`Front Door` with a nil error. -/
theorem getDevice_matching_response :
    GetDeviceFromDiscoverProbeResponse sampleID
        (.ok (probeMatch sampleID sampleScopes "http://10.0.0.5/onvif/device_service")) =
      ({ ID := "", Name := "", XAddr := "" }, some errWrongDiscoveryResponse) := by
  decide

/-- C3: on a well-formed response that answers the round and has an empty
`XAddrs` field the code returns `errWrongDiscoveryResponse`, not the error
`Device does not have any xAddr`; and on the same response under the root key
`Envolope`, which passes the lookup of the code, it returns a Device with an
empty `XAddr` and a nil error. -/
theorem getDevice_empty_xaddrs :
    GetDeviceFromDiscoverProbeResponse sampleID (.ok (probeMatch sampleID sampleScopes "")) =
      ({ ID := "", Name := "", XAddr := "" }, some errWrongDiscoveryResponse) ∧
    GetDeviceFromDiscoverProbeResponse sampleID
        (.ok (probeMatchUnder "Envolope" sampleID sampleScopes "")) =
      ({ ID := "", Name := "", XAddr := "" }, none) := by
  decide

/-- C1: a round that receives one well-formed response to another probe
(correlation field different from the message identifier) returns a list with
one zero Device and a nil error. -/
theorem discoverDevices_foreign_response :
    DiscoverDevices Setup.ok sampleID
        [.datagram (.ok (probeMatch "11111111-2222-4333-8444-555555555555" sampleScopes
          "http://10.0.0.9/onvif/device_service"))] =
      ([{ ID := "", Name := "", XAddr := "" }], none) := by
  decide

/-- C9: a round that receives one well-formed response and then a receive
error that is not a timeout returns that error together with a list of one
Device. -/
theorem discoverDevices_receive_failure :
    DiscoverDevices Setup.ok sampleID
        [.datagram (.ok (probeMatch sampleID sampleScopes
          "http://10.0.0.5/onvif/device_service")),
         .failure (Error.New "read udp 10.0.0.2:40000: network is unreachable")] =
      ([{ ID := "", Name := "", XAddr := "" }],
        some (Error.New "read udp 10.0.0.2:40000: network is unreachable")) := by
  decide

/-- C4: on a response whose `Envelope/Body` holds `Fault/Reason/Text` with the
text `Sender not authorized`, `Call` returns the parsed map and a nil error,
not an error with the fault text. -/
theorem call_fault_response :
    (MakeRequest "<tds:GetScopes xmlns:tds=\"http://www.onvif.org/ver10/device/wsdl\"/>" []
        "admin" "secret" 0).Call (Exchange.ok (faultResponse "Sender not authorized")) =
      (some (faultResponse "Sender not authorized"), none) := by
  rfl

/-- C8, as the claim states it: a round that receives one datagram that is not
well-formed XML returns the error of the decoder, not a nil error. -/
theorem discoverDevices_malformed_sample :
    DiscoverDevices Setup.ok sampleID
        [.datagram (.error "xml.Decoder.Token() - XML syntax error on line 1: unexpected EOF")] =
      ([], some (Error.New
        "xml.Decoder.Token() - XML syntax error on line 1: unexpected EOF")) := by
  decide

/-- C8, amended: for a non-empty message identifier, the first datagram that is
not well-formed XML ends the round; `DiscoverDevices` returns the error of the
decoder with an empty Device list, whatever the well-formed datagrams before it
gave and whatever would have been received after it. -/
theorem discoverDevices_malformed_aborts (requestID : String) (hid : requestID ≠ "")
    (before : List Map) (text : String) (after : List Receive) :
    DiscoverDevices Setup.ok requestID
        (before.map (fun m => Receive.datagram (.ok m)) ++
          Receive.datagram (.error text) :: after) =
      ([], some (Error.New text)) := by
  simp only [DiscoverDevices, Setup.ok]
  exact receiveLoop_malformed requestID hid before text after []

/-- The amended C8 on a round that receives a well-formed response, a truncated
datagram and then the timeout. -/
theorem discoverDevices_malformed_aborts_witness :
    sampleID ≠ "" ∧
    DiscoverDevices Setup.ok sampleID
        ([probeMatch sampleID sampleScopes "http://10.0.0.5/onvif/device_service"].map
            (fun m => Receive.datagram (.ok m)) ++
          Receive.datagram (.error "unexpected EOF") :: [Receive.timeout]) =
      ([], some (Error.New "unexpected EOF")) :=
  ⟨by decide, discoverDevices_malformed_aborts sampleID (by decide)
    [probeMatch sampleID sampleScopes "http://10.0.0.5/onvif/device_service"]
    "unexpected EOF" [Receive.timeout]⟩

end Onvif
